import Mathlib

/-!
Verification of the recording orchestrator of app-emirecords
(`src/emirecorder/recording/recorder.py`, class `Recorder`).

The embedding models the durable store value (the set of used ports,
`store.get` and `store.set`) as an explicit `List ℕ` threaded through the
operations.  A Python `set[int]` is represented by the list of its elements
in the internal iteration order of the set; the list is duplicate-free
whenever it represents a set.  Each `async with lock` block is modelled as
one atomic state transition, since the lock serializes all read-modify-write
sequences.  Naive datetimes are integers (an absolute count of time units),
timedeltas are integers, and the ZoneInfo conversion of a naive local start
to a zone-stripped UTC instant is abstracted as a function on those
integers.  Fallible code returns `Except RecError` or `Option`.
-/

namespace Emirecords

/-- Errors raised by the recorder: `InstanceNotFoundError` (carrying the
event id) and `NoPortsAvailableError` from
`emirecorder.recording.errors`, the `KeyError` raised by `set.remove` on a
missing element, and an arbitrary exception escaping the stream runner. -/
inductive RecError where
  | instanceNotFound (event : String)
  | noPortsAvailable
  | keyError
  | runnerError
deriving DecidableEq

/-- Modelled from the spec: `emirecorder.emishows.models.EventInstance` is
not under src; the spec gives Occurrence = \x7bid, start time as a
zone-naive wall-clock value\x7d.  `start` is a naive datetime as an
integer. -/
structure EventInstance where
  id : String
  start : ℤ
deriving DecidableEq

/-- Modelled from the spec: `emirecorder.emishows.models.Event` is not
under src; the spec gives episode = \x7bid, timezone name\x7d, and
`recorder.py` reads `event.id` and `event.timezone`. -/
structure Event where
  id : String
  timezone : String
deriving DecidableEq

/-- Modelled from the spec: `emirecorder.emishows.models.EventSchedule` is
not under src; the spec gives Schedule = \x7bepisode, ordered sequence of
Occurrence\x7d, and `recorder.py` reads `schedule.event` and
`schedule.instances`. -/
structure EventSchedule where
  event : Event
  instances : List EventInstance
deriving DecidableEq

/-- Modelled from the spec: `emirecorder.recording.models.Credentials` is
not under src; the spec gives Credentials = \x7btoken, expiry\x7d, and
`recorder.py` builds `Credentials(token=..., expires_at=...)`. -/
structure Credentials where
  token : String
  expires_at : ℤ
deriving DecidableEq

/-- Modelled from the spec: `emirecorder.recording.models.Request` is not
under src; the spec gives Request = \x7bepisode id, desired capture
format\x7d.  The id is kept as a string, as `_get_schedule` stringifies the
UUID before comparing. -/
structure Request where
  event : String
  format : String
deriving DecidableEq

/-- Modelled from the spec: `emirecorder.recording.models.Response` is not
under src; the spec gives Response = \x7bcredentials, host, port\x7d, and
`recorder.py` builds `Response(credentials=..., host=..., port=...)`. -/
structure Response where
  credentials : Credentials
  host : String
  port : ℕ
deriving DecidableEq

/-- `available = self._config.recorder.ports - used` in `_reserve_port`:
set difference, keeping the iteration order of the pool representation. -/
def available (pool used : List ℕ) : List ℕ :=
  pool.filter (fun p => decide (p ∉ used))

/-- `Recorder._reserve_port`, the body of the locked block: read the used
set, compute `available`, raise `NoPortsAvailableError` if it is empty,
otherwise pop a port and write `used | \x7bport\x7d`.  Python `set.pop`
removes and returns an arbitrary element, determined by the internal
hash-table layout, not by the mathematical value of the set; it is modelled
here as taking the first element of the representation order, one
admissible layout.  On success the result carries the port and the new
stored set; on failure the store is not written. -/
def reserve_port (pool used : List ℕ) : Except RecError (ℕ × List ℕ) :=
  match available pool used with
  | [] => .error .noPortsAvailable
  | port :: _ => .ok (port, used ++ [port])

/-- The stored used set after `_reserve_port` returns or raises: on
failure the `store.set` call is never reached, so the old value remains. -/
def reserve_port_store (pool used : List ℕ) : List ℕ :=
  match reserve_port pool used with
  | .ok (_, u) => u
  | .error _ => used

/-- `Recorder._free_port`, the body of the locked block: read the used set
and `used.remove(port)`.  Python `set.remove` raises `KeyError` when the
element is absent (modelled as `none`), in which case the `store.set` call
is never reached; otherwise the set without the port is written back. -/
def free_port (used : List ℕ) (port : ℕ) : Option (List ℕ) :=
  if port ∈ used then some (used.erase port) else none

/-- The stored used set after `_free_port` returns or raises. -/
def free_port_store (used : List ℕ) (port : ℕ) : List ℕ :=
  (free_port used port).getD used

/-- `Recorder._watch_stream`: `try await stream.wait() finally await
self._free_port(port)`.  The outcome of `stream.wait` is a parameter
(success or an internal stream failure); the port is freed in both cases.
If `free_port` itself raises, its `KeyError` replaces the outcome, per
`try`/`finally` semantics.  Returns the outcome of the watcher together
with the stored used set after it ran. -/
def watch_stream (wait : Except RecError Unit) (used : List ℕ) (port : ℕ) :
    Except RecError Unit × List ℕ :=
  match free_port used port with
  | some u => (wait, u)
  | none => (.error .keyError, used)

/-- `Recorder._get_schedule`: take the first schedule in the response
whose `schedule.event.id` equals the stringified requested event id
(Python `next` over a filtering generator with default `None`), and raise
`InstanceNotFoundError(event)` when there is none. -/
def get_schedule (schedules : List EventSchedule) (event : String) :
    Except RecError EventSchedule :=
  match schedules.find? (fun s => s.event.id == event) with
  | some s => .ok s
  | none => .error (.instanceNotFound event)

/-- The key of `_compare` inside `_find_nearest_instance`:
`abs(start.replace(tzinfo=timezone).astimezone(utczone()).replace(tzinfo=None)
- reference)`.  The ZoneInfo conversion from the naive local start to the
zone-stripped UTC instant is abstracted as `to_utc`; the absolute timedelta
is the natural absolute value of the integer difference. -/
def compare_key (to_utc : ℤ → ℤ) (reference : ℤ) (inst : EventInstance) : ℕ :=
  (to_utc inst.start - reference).natAbs

/-- The fold underlying Python `min` with a key function: keep the current
best and replace it only when a later element has a strictly smaller key,
hence the first minimizer wins ties. -/
def min_fold (key : α → ℕ) (x : α) (xs : List α) : α :=
  xs.foldl (fun b a => if key a < key b then a else b) x

/-- Python `min(xs, key=key, default=None)`: `none` on the empty list,
otherwise the stable minimum. -/
def py_min (key : α → ℕ) : List α → Option α
  | [] => none
  | x :: xs => some (min_fold key x xs)

/-- `Recorder._find_nearest_instance`: the stable minimum of the instances
under `_compare`, raising `InstanceNotFoundError(event.id)` when the list
is empty. -/
def find_nearest_instance (reference : ℤ) (to_utc : ℤ → ℤ) (event : Event)
    (instances : List EventInstance) : Except RecError EventInstance :=
  match py_min (compare_key to_utc reference) instances with
  | some inst => .ok inst
  | none => .error (.instanceNotFound event.id)

/-- The lowercase hexadecimal digit character of a nibble: code 48 is the
zero digit, code 97 is the letter a. -/
def hex_digit (n : Fin 16) : Char :=
  if n.val < 10 then Char.ofNat (48 + n.val) else Char.ofNat (87 + n.val)

/-- The two lowercase hex characters encoding one byte, high nibble
first, as `bytes.hex` renders each byte. -/
def encode_byte (b : Fin 256) : List Char :=
  [hex_digit ⟨b.val / 16, by omega⟩, hex_digit ⟨b.val % 16, by omega⟩]

/-- The character list of `secrets.token_hex`: the concatenation of the
two-character hex encodings of the random bytes. -/
def token_hex_chars : List (Fin 256) → List Char
  | [] => []
  | b :: bs => encode_byte b ++ token_hex_chars bs

/-- `Recorder._generate_token`: `secrets.token_hex(16)` reads sixteen
bytes from the CSPRNG of the `secrets` module and hex-encodes them.  The
random bytes are a parameter of the model. -/
def generate_token (bytes : List (Fin 256)) : String :=
  String.mk (token_hex_chars bytes)

/-- `Recorder._get_token_expiry`: the zone-stripped current UTC time plus
`self._config.recorder.timeout`.  Modelled from the spec for the missing
`emirecorder.config.models`: the timeout is a configured duration, carried
here as an integer parameter alongside the clock reading. -/
def get_token_expiry (now timeout : ℤ) : ℤ :=
  now + timeout

/-- `Recorder._generate_credentials`: a fresh token and its expiry. -/
def generate_credentials (bytes : List (Fin 256)) (now timeout : ℤ) : Credentials :=
  { token := generate_token bytes, expires_at := get_token_expiry now timeout }

/-- `Recorder.record` after the reference time and window were computed
and the schedule service answered: resolve the schedule and the nearest
instance, build credentials, take the host, reserve a port, then start the
stream runner.  The runner outcome is a parameter: `_run` either returns
(and detaches the watcher) or raises, and on a raise `record` frees the
freshly reserved port in its `except` block before re-raising.  The result
pairs the outcome of the call with the stored used set after it. -/
def record (pool : List ℕ) (schedules : List EventSchedule) (reference : ℤ)
    (to_utc : String → ℤ → ℤ) (creds : Credentials) (host : String)
    (runner : Except RecError Unit) (request : Request) (used : List ℕ) :
    Except RecError Response × List ℕ :=
  match get_schedule schedules request.event with
  | .error e => (.error e, used)
  | .ok schedule =>
    match find_nearest_instance reference (to_utc schedule.event.timezone)
        schedule.event schedule.instances with
    | .error e => (.error e, used)
    | .ok _ =>
      match reserve_port pool used with
      | .error e => (.error e, used)
      | .ok (port, used1) =>
        match runner with
        | .error e => (.error e, free_port_store used1 port)
        | .ok _ => (.ok ⟨creds, host, port⟩, used1)

/-! ### Helper lemmas about the port pool operations -/

/-- Membership in `available` is membership in the pool minus the used set. -/
lemma mem_available {pool used : List ℕ} {p : ℕ} :
    p ∈ available pool used ↔ p ∈ pool ∧ p ∉ used := by
  simp [available]

/-- A successful `reserve_port` returns the head of `available` and appends
it to the stored representation. -/
lemma reserve_port_ok {pool used rest : List ℕ} {port : ℕ}
    (h : reserve_port pool used = .ok (port, rest)) :
    port ∈ available pool used ∧ rest = used ++ [port] := by
  unfold reserve_port at h
  cases havail : available pool used with
  | nil => rw [havail] at h; exact absurd h (by simp)
  | cons q qs =>
      rw [havail] at h
      simp only [Except.ok.injEq, Prod.mk.injEq] at h
      obtain ⟨hq, hrest⟩ := h
      subst hq
      exact ⟨List.mem_cons_self _ _, hrest.symm⟩

/-- `reserve_port` fails exactly when `available` is empty. -/
lemma reserve_port_error_iff {pool used : List ℕ} :
    reserve_port pool used = .error .noPortsAvailable ↔ available pool used = [] := by
  unfold reserve_port
  cases havail : available pool used <;> simp

/-- On a successful reservation the port was not previously used. -/
lemma reserve_port_not_used {pool used rest : List ℕ} {port : ℕ}
    (h : reserve_port pool used = .ok (port, rest)) : port ∉ used :=
  (mem_available.mp (reserve_port_ok h).1).2

/-- Freeing a used port erases it from the stored representation. -/
lemma free_port_store_mem {used : List ℕ} {port : ℕ} (h : port ∈ used) :
    free_port_store used port = used.erase port := by
  simp [free_port_store, free_port, h]

/-- Freeing the port just appended restores the original representation. -/
lemma free_port_store_append {used : List ℕ} {port : ℕ} (h : port ∉ used) :
    free_port_store (used ++ [port]) port = used := by
  rw [free_port_store_mem (by simp), List.erase_append_right _ h]
  simp

/-! ### Claim theorems about allocation and release -/

/-- C1: allocation computes `available = pool − used`; whenever it is
empty the call fails with `NoPortsAvailableError` and the stored used set
is unchanged, and whenever it is non-empty the call succeeds, returns a
port from `available`, and stores `used ∪ \x7bport\x7d`. -/
theorem C1_allocate (pool used : List ℕ) :
    (available pool used = [] →
      reserve_port pool used = .error .noPortsAvailable ∧
      reserve_port_store pool used = used) ∧
    (∀ port rest, reserve_port pool used = .ok (port, rest) →
      port ∈ available pool used ∧
      rest.toFinset = used.toFinset ∪ {port} ∧
      reserve_port_store pool used = rest) ∧
    (available pool used ≠ [] →
      ∃ port rest, reserve_port pool used = .ok (port, rest)) := by
  refine ⟨?_, ?_, ?_⟩
  · intro hempty
    have herr : reserve_port pool used = .error .noPortsAvailable :=
      reserve_port_error_iff.mpr hempty
    exact ⟨herr, by simp [reserve_port_store, herr]⟩
  · intro port rest h
    obtain ⟨hmem, hrest⟩ := reserve_port_ok h
    refine ⟨hmem, ?_, by simp [reserve_port_store, h]⟩
    subst hrest
    simp
  · intro hne
    cases havail : available pool used with
    | nil => exact absurd havail hne
    | cons q qs => exact ⟨q, used ++ [q], by unfold reserve_port; rw [havail]⟩

/-- C1 witness: with a pool of size one and its port used, allocation
fails with `NoPortsAvailableError` leaving the store unchanged; after
releasing the port, allocation succeeds returning the same port. -/
theorem C1_allocate_witness :
    reserve_port [5000] [5000] = .error .noPortsAvailable ∧
    reserve_port_store [5000] [5000] = [5000] ∧
    free_port_store [5000] 5000 = [] ∧
    reserve_port [5000] [] = .ok (5000, [5000]) :=
  ⟨((C1_allocate [5000] [5000]).1 (by decide)).1,
   ((C1_allocate [5000] [5000]).1 (by decide)).2,
   rfl, rfl⟩

/-- C2 counterexample: the two pool representations `[9, 16]` and
`[16, 9]` denote the same configured pool set, yet with the same (empty)
used set allocation picks port 9 from the first and port 16 from the
second: the picked port is not a function of the abstract pool and used
sets, because Python `set.pop` depends on the internal layout of the set. -/
theorem C2_counterexample :
    ([9, 16] : List ℕ).toFinset = ([16, 9] : List ℕ).toFinset ∧
    reserve_port [9, 16] [] = .ok (9, [9]) ∧
    reserve_port [16, 9] [] = .ok (16, [16]) :=
  ⟨by decide, rfl, rfl⟩

/-- C2 amended: the picked port is deterministic only relative to the
internal representation order of the pool set: it is the first element of
that order not in the used set (an arbitrary element of `available` as far
as the abstract sets are concerned), it lies in the pool, and it was not
used. -/
theorem C2_pick (pool used : List ℕ) (port : ℕ)
    (h : (available pool used).head? = some port) :
    reserve_port pool used = .ok (port, used ++ [port]) ∧
    port ∈ pool ∧ port ∉ used := by
  cases havail : available pool used with
  | nil => rw [havail] at h; exact absurd h (by simp)
  | cons q qs =>
      rw [havail] at h
      simp only [List.head?_cons, Option.some.injEq] at h
      subst h
      refine ⟨by unfold reserve_port; rw [havail], ?_⟩
      apply mem_available.mp
      rw [havail]
      exact List.mem_cons_self _ _

/-- C2 witness: a concrete successful pick. -/
theorem C2_pick_witness :
    reserve_port [9, 16] [] = .ok (9, [] ++ [9]) ∧
    9 ∈ ([9, 16] : List ℕ) ∧ 9 ∉ ([] : List ℕ) :=
  C2_pick [9, 16] [] 9 rfl

/-- C10: releasing a port that is not in the stored used set raises
`KeyError` from `set.remove` before `store.set` is reached, so the stored
used set is unchanged. -/
theorem C10_free_missing (used : List ℕ) (port : ℕ) (h : port ∉ used) :
    free_port used port = none ∧ free_port_store used port = used := by
  constructor
  · simp [free_port, h]
  · simp [free_port_store, free_port, h]

/-- C10 witness: releasing port 5001 when only 5000 is used. -/
theorem C10_free_missing_witness :
    free_port [5000] 5001 = none ∧ free_port_store [5000] 5001 = [5000] :=
  C10_free_missing [5000] 5001 (by decide)

/-- C7: starting from a used set inside the pool, a successful allocation
stores exactly the old set plus the fresh port and stays inside the pool,
and releasing a used port stores exactly the old set minus that port and
stays inside the pool; the allocated port enters the used set at
allocation and leaves it at release. -/
theorem C7_invariant (pool used : List ℕ) (hsub : used.toFinset ⊆ pool.toFinset)
    (hnd : used.Nodup) :
    (∀ port rest, reserve_port pool used = .ok (port, rest) →
      rest.toFinset ⊆ pool.toFinset ∧
      rest.toFinset = insert port used.toFinset ∧
      port ∉ used.toFinset ∧ port ∈ rest.toFinset) ∧
    (∀ port, port ∈ used.toFinset →
      (free_port_store used port).toFinset ⊆ pool.toFinset ∧
      (free_port_store used port).toFinset = used.toFinset.erase port ∧
      port ∉ (free_port_store used port).toFinset) := by
  constructor
  · intro port rest h
    obtain ⟨hmem, hrest⟩ := reserve_port_ok h
    obtain ⟨hpool, hused⟩ := mem_available.mp hmem
    have hfin : rest.toFinset = insert port used.toFinset := by
      subst hrest
      ext a
      simp [or_comm]
    refine ⟨?_, hfin, by simpa using hused, ?_⟩
    · rw [hfin]
      exact Finset.insert_subset (List.mem_toFinset.mpr hpool) hsub
    · rw [hfin]
      exact Finset.mem_insert_self _ _
  · intro port hport
    have hmem : port ∈ used := List.mem_toFinset.mp hport
    have hstore : free_port_store used port = used.erase port :=
      free_port_store_mem hmem
    have hfin : (used.erase port).toFinset = used.toFinset.erase port := by
      ext a
      simp [List.mem_toFinset, hnd.mem_erase_iff, Finset.mem_erase]
    rw [hstore, hfin]
    exact ⟨(Finset.erase_subset _ _).trans hsub, rfl, Finset.not_mem_erase _ _⟩

/-- C7 witness: pool `\x7b5000, 5001, 5002\x7d` with `\x7b5000, 5001\x7d`
used; allocation adds the fresh port 5002, release of 5000 removes it. -/
theorem C7_invariant_witness :
    (([5000, 5001, 5002] : List ℕ).toFinset ⊆ ([5000, 5001, 5002] : List ℕ).toFinset ∧
     ([5000, 5001, 5002] : List ℕ).toFinset = insert 5002 ([5000, 5001] : List ℕ).toFinset ∧
     5002 ∉ ([5000, 5001] : List ℕ).toFinset ∧
     5002 ∈ ([5000, 5001, 5002] : List ℕ).toFinset) ∧
    ((free_port_store [5000, 5001] 5000).toFinset ⊆ ([5000, 5001, 5002] : List ℕ).toFinset ∧
     (free_port_store [5000, 5001] 5000).toFinset = ([5000, 5001] : List ℕ).toFinset.erase 5000 ∧
     5000 ∉ (free_port_store [5000, 5001] 5000).toFinset) :=
  ⟨(C7_invariant [5000, 5001, 5002] [5000, 5001] (by decide) (by decide)).1
      5002 [5000, 5001, 5002] rfl,
   (C7_invariant [5000, 5001, 5002] [5000, 5001] (by decide) (by decide)).2
      5000 (by decide)⟩

/-- C4: whatever the outcome of `stream.wait` — clean termination or an
internal stream failure — the detached watcher frees the port of the
recording: the stored used set afterwards is the old one minus the port,
the port is no longer marked used, and it is again available to a later
allocation from any pool containing it. -/
theorem C4_watcher (wait : Except RecError Unit) (used pool : List ℕ) (port : ℕ)
    (hmem : port ∈ used) (hnd : used.Nodup) (hpool : port ∈ pool) :
    (watch_stream wait used port).1 = wait ∧
    (watch_stream wait used port).2.toFinset = used.toFinset.erase port ∧
    port ∉ (watch_stream wait used port).2 ∧
    port ∈ available pool (watch_stream wait used port).2 := by
  have hfree : free_port used port = some (used.erase port) := by
    simp [free_port, hmem]
  have hws : watch_stream wait used port = (wait, used.erase port) := by
    simp [watch_stream, hfree]
  rw [hws]
  have hnotmem : port ∉ used.erase port := by
    intro hc
    exact absurd (hnd.mem_erase_iff.mp hc).1 (by simp)
  refine ⟨rfl, ?_, hnotmem, mem_available.mpr ⟨hpool, hnotmem⟩⟩
  ext a
  simp [List.mem_toFinset, hnd.mem_erase_iff, Finset.mem_erase]

/-- C4 witness: a stream that started on port 6000 and then failed
internally still frees the port, and a later allocation from the pool
`\x7b6000\x7d` can reuse it. -/
theorem C4_watcher_witness :
    (watch_stream (.error .runnerError) [6000] 6000).1 = .error .runnerError ∧
    (watch_stream (.error .runnerError) [6000] 6000).2.toFinset
      = ([6000] : List ℕ).toFinset.erase 6000 ∧
    6000 ∉ (watch_stream (.error .runnerError) [6000] 6000).2 ∧
    6000 ∈ available [6000] (watch_stream (.error .runnerError) [6000] 6000).2 :=
  C4_watcher (.error .runnerError) [6000] [6000] 6000 (by decide) (by decide) (by decide)

/-! ### Schedule matching -/

/-- `get_schedule` picks a matching head immediately. -/
lemma get_schedule_cons_pos {hd : EventSchedule} {tl : List EventSchedule}
    {event : String} (h : hd.event.id = event) :
    get_schedule (hd :: tl) event = .ok hd := by
  simp [get_schedule, List.find?_cons_of_pos, h]

/-- `get_schedule` skips a non-matching head. -/
lemma get_schedule_cons_neg {hd : EventSchedule} {tl : List EventSchedule}
    {event : String} (h : hd.event.id ≠ event) :
    get_schedule (hd :: tl) event = get_schedule tl event := by
  have : (hd.event.id == event) = false := beq_eq_false_iff_ne.mpr h
  simp [get_schedule, List.find?, this]

/-- C6: the schedule matcher returns the first record of the response
whose episode id equals the requested id exactly, ignoring all the other
records, and fails with `InstanceNotFoundError` when no record matches. -/
theorem C6_schedule (schedules : List EventSchedule) (event : String) :
    (∀ s, get_schedule schedules event = .ok s →
      s.event.id = event ∧
      ∃ l₁ l₂, schedules = l₁ ++ s :: l₂ ∧ ∀ t ∈ l₁, t.event.id ≠ event) ∧
    ((∀ t ∈ schedules, t.event.id ≠ event) →
      get_schedule schedules event = .error (.instanceNotFound event)) := by
  induction schedules with
  | nil =>
      constructor
      · intro s h
        exact absurd h (by simp [get_schedule])
      · intro _
        rfl
  | cons hd tl ih =>
      by_cases hhd : hd.event.id = event
      · constructor
        · intro s h
          rw [get_schedule_cons_pos hhd] at h
          simp only [Except.ok.injEq] at h
          subst h
          exact ⟨hhd, [], tl, rfl, by simp⟩
        · intro hall
          exact absurd hhd (hall hd (List.mem_cons_self _ _))
      · constructor
        · intro s h
          rw [get_schedule_cons_neg hhd] at h
          obtain ⟨hid, l₁, l₂, hdec, hnone⟩ := ih.1 s h
          refine ⟨hid, hd :: l₁, l₂, by simp [hdec], ?_⟩
          intro t ht
          rcases List.mem_cons.mp ht with rfl | ht'
          · exact hhd
          · exact hnone t ht'
        · intro hall
          rw [get_schedule_cons_neg hhd]
          exact ih.2 fun t ht => hall t (List.mem_cons_of_mem _ ht)

/-- C6 witness: among three records the first whose id is "ev" is
returned, the non-matching record before it and the matching record after
it are ignored; and with no matching record the matcher fails. -/
theorem C6_schedule_witness :
    ((⟨⟨"ev", "Etc/UTC"⟩, []⟩ : EventSchedule).event.id = "ev" ∧
     ∃ l₁ l₂,
       ([⟨⟨"other", "Etc/UTC"⟩, []⟩, ⟨⟨"ev", "Etc/UTC"⟩, []⟩,
         ⟨⟨"ev", "Etc/UTC"⟩, [⟨"i", 0⟩]⟩] : List EventSchedule)
         = l₁ ++ (⟨⟨"ev", "Etc/UTC"⟩, []⟩ : EventSchedule) :: l₂ ∧
       ∀ t ∈ l₁, t.event.id ≠ "ev") ∧
    get_schedule [⟨⟨"other", "Etc/UTC"⟩, []⟩] "ev"
      = .error (.instanceNotFound "ev") :=
  ⟨(C6_schedule [⟨⟨"other", "Etc/UTC"⟩, []⟩, ⟨⟨"ev", "Etc/UTC"⟩, []⟩,
      ⟨⟨"ev", "Etc/UTC"⟩, [⟨"i", 0⟩]⟩] "ev").1 ⟨⟨"ev", "Etc/UTC"⟩, []⟩ rfl,
   (C6_schedule [⟨⟨"other", "Etc/UTC"⟩, []⟩] "ev").2 (by decide)⟩

/-! ### Orchestrator lifecycle -/

/-- C3: if the stream runner raises after a port was reserved, `record`
frees that port in its `except` block before re-raising, so the stored
used set when the failed call returns is exactly the one from before the
allocation, and the reserved port is not in it. -/
theorem C3_rollback (pool used : List ℕ) (schedules : List EventSchedule)
    (reference : ℤ) (to_utc : String → ℤ → ℤ) (creds : Credentials)
    (host : String) (request : Request) (e : RecError)
    (schedule : EventSchedule) (inst : EventInstance) (port : ℕ) (used1 : List ℕ)
    (h1 : get_schedule schedules request.event = .ok schedule)
    (h2 : find_nearest_instance reference (to_utc schedule.event.timezone)
        schedule.event schedule.instances = .ok inst)
    (h3 : reserve_port pool used = .ok (port, used1)) :
    record pool schedules reference to_utc creds host (.error e) request used
      = (.error e, used) ∧
    port ∉ used := by
  have hused : port ∉ used := reserve_port_not_used h3
  obtain ⟨_, hrest⟩ := reserve_port_ok h3
  subst hrest
  refine ⟨?_, hused⟩
  simp only [record, h1, h2, h3, free_port_store_append hused]

/-- C3 witness: a concrete resolved request whose runner start fails. -/
theorem C3_rollback_witness :
    record [5000] [⟨⟨"ev", "Etc/UTC"⟩, [⟨"i1", 2⟩]⟩] 0 (fun _ t => t)
        ⟨"token", 1⟩ "host" (.error .runnerError) ⟨"ev", "ogg"⟩ []
      = (.error .runnerError, []) ∧
    5000 ∉ ([] : List ℕ) :=
  C3_rollback [5000] [] [⟨⟨"ev", "Etc/UTC"⟩, [⟨"i1", 2⟩]⟩] 0 (fun _ t => t)
    ⟨"token", 1⟩ "host" ⟨"ev", "ogg"⟩ .runnerError
    ⟨⟨"ev", "Etc/UTC"⟩, [⟨"i1", 2⟩]⟩ ⟨"i1", 2⟩ 5000 [5000] rfl rfl rfl

/-- C9: when the resolving stage fails — no schedule record matches, or
the matching record has no occurrences — `record` propagates the
`InstanceNotFoundError` and the stored used set is untouched: no port is
allocated or released on that path. -/
theorem C9_frame (pool : List ℕ) (schedules : List EventSchedule) (reference : ℤ)
    (to_utc : String → ℤ → ℤ) (creds : Credentials) (host : String)
    (runner : Except RecError Unit) (request : Request) (used : List ℕ) :
    (∀ e, get_schedule schedules request.event = .error e →
      record pool schedules reference to_utc creds host runner request used
        = (.error e, used)) ∧
    (∀ schedule, get_schedule schedules request.event = .ok schedule →
      schedule.instances = [] →
      record pool schedules reference to_utc creds host runner request used
        = (.error (.instanceNotFound schedule.event.id), used)) := by
  constructor
  · intro e h
    simp only [record, h]
  · intro schedule h hempty
    have hfind : find_nearest_instance reference (to_utc schedule.event.timezone)
        schedule.event schedule.instances
        = .error (.instanceNotFound schedule.event.id) := by
      rw [hempty]
      rfl
    simp only [record, h, hfind]

/-- C9 witness: a request for an unknown episode, and one for an episode
whose matching schedule has an empty occurrence list; in both runs the
used set `[5000]` is returned unchanged. -/
theorem C9_frame_witness :
    record [5000, 5001] [] 0 (fun _ t => t) ⟨"token", 1⟩ "host"
        (.ok ()) ⟨"ev", "ogg"⟩ [5000]
      = (.error (.instanceNotFound "ev"), [5000]) ∧
    record [5000, 5001] [⟨⟨"ev", "Etc/UTC"⟩, []⟩] 0 (fun _ t => t) ⟨"token", 1⟩
        "host" (.ok ()) ⟨"ev", "ogg"⟩ [5000]
      = (.error (.instanceNotFound "ev"), [5000]) :=
  ⟨(C9_frame [5000, 5001] [] 0 (fun _ t => t) ⟨"token", 1⟩ "host"
      (.ok ()) ⟨"ev", "ogg"⟩ [5000]).1 (.instanceNotFound "ev") rfl,
   (C9_frame [5000, 5001] [⟨⟨"ev", "Etc/UTC"⟩, []⟩] 0 (fun _ t => t) ⟨"token", 1⟩
      "host" (.ok ()) ⟨"ev", "ogg"⟩ [5000]).2 ⟨⟨"ev", "Etc/UTC"⟩, []⟩ rfl rfl⟩

/-! ### The stable minimum of Python `min` -/

/-- The fold of Python `min` returns an element of the list that has a
minimal key and is the first element attaining that key. -/
lemma min_fold_spec (key : α → ℕ) :
    ∀ (xs : List α) (x : α),
      min_fold key x xs ∈ x :: xs ∧
      (∀ a ∈ x :: xs, key (min_fold key x xs) ≤ key a) ∧
      ∃ l₁ l₂, x :: xs = l₁ ++ min_fold key x xs :: l₂ ∧
        ∀ a ∈ l₁, key (min_fold key x xs) < key a := by
  intro xs
  induction xs with
  | nil =>
      intro x
      refine ⟨by simp [min_fold], ?_, [], [], by simp [min_fold], by simp⟩
      intro a ha
      rw [List.mem_singleton.mp ha]
      exact le_refl _
  | cons y ys ih =>
      intro x
      by_cases hxy : key y < key x
      · have hstep : min_fold key x (y :: ys) = min_fold key y ys := by
          simp [min_fold, hxy]
        obtain ⟨hmem, hle, l₁, l₂, hdec, hlt⟩ := ih y
        rw [hstep]
        have hry : key (min_fold key y ys) ≤ key y :=
          hle y (List.mem_cons_self _ _)
        refine ⟨List.mem_cons_of_mem x hmem, ?_, x :: l₁, l₂, by simp [← hdec], ?_⟩
        · intro a ha
          rcases List.mem_cons.mp ha with rfl | ha'
          · exact le_of_lt (lt_of_le_of_lt hry hxy)
          · exact hle a ha'
        · intro a ha
          rcases List.mem_cons.mp ha with rfl | ha'
          · exact lt_of_le_of_lt hry hxy
          · exact hlt a ha'
      · have hstep : min_fold key x (y :: ys) = min_fold key x ys := by
          simp [min_fold, hxy]
        obtain ⟨hmem, hle, l₁, l₂, hdec, hlt⟩ := ih x
        rw [hstep]
        have hxley : key x ≤ key y := Nat.le_of_not_lt hxy
        have hrx : key (min_fold key x ys) ≤ key x :=
          hle x (List.mem_cons_self _ _)
        refine ⟨?_, ?_, ?_⟩
        · rcases List.mem_cons.mp hmem with hx | hys
          · rw [hx]
            exact List.mem_cons_self _ _
          · exact List.mem_cons_of_mem x (List.mem_cons_of_mem y hys)
        · intro a ha
          rcases List.mem_cons.mp ha with rfl | ha'
          · exact hrx
          · rcases List.mem_cons.mp ha' with rfl | ha''
            · exact hrx.trans hxley
            · exact hle a (List.mem_cons_of_mem x ha'')
        · cases l₁ with
          | nil =>
              simp only [List.nil_append, List.cons.injEq] at hdec
              refine ⟨[], y :: ys, ?_, by simp⟩
              rw [List.nil_append, ← hdec.1]
          | cons b l₁x =>
              simp only [List.cons_append, List.cons.injEq] at hdec
              obtain ⟨hbx, hys⟩ := hdec
              subst hbx
              have hlt_x : key (min_fold key x ys) < key x :=
                hlt x (List.mem_cons_self _ _)
              refine ⟨x :: y :: l₁x, l₂, ?_, ?_⟩
              · conv_lhs => rw [hys]
                rfl
              intro a ha
              rcases List.mem_cons.mp ha with rfl | ha'
              · exact hlt_x
              · rcases List.mem_cons.mp ha' with rfl | ha''
                · exact lt_of_lt_of_le hlt_x hxley
                · exact hlt a (List.mem_cons_of_mem x ha'')

/-- `py_min` on a non-empty list: an element with minimal key, the first
such element; `none` exactly on the empty list. -/
lemma py_min_spec (key : α → ℕ) (l : List α) :
    (l = [] → py_min key l = none) ∧
    ∀ r, py_min key l = some r →
      r ∈ l ∧ (∀ a ∈ l, key r ≤ key a) ∧
      ∃ l₁ l₂, l = l₁ ++ r :: l₂ ∧ ∀ a ∈ l₁, key r < key a := by
  cases l with
  | nil => exact ⟨fun _ => rfl, fun r h => absurd h (by simp [py_min])⟩
  | cons x xs =>
      refine ⟨by simp, ?_⟩
      intro r h
      have hr : r = min_fold key x xs := by
        simpa [py_min] using h.symm
      subst hr
      exact min_fold_spec key xs x

/-- C5: on a non-empty occurrence list, the selector returns the
occurrence minimizing the absolute delta between the reference instant and
the occurrence start converted to zone-stripped UTC, ties broken by
first-encountered order; on the empty list it fails with
`InstanceNotFoundError`. -/
theorem C5_nearest (reference : ℤ) (to_utc : ℤ → ℤ) (event : Event)
    (instances : List EventInstance) :
    (instances = [] →
      find_nearest_instance reference to_utc event instances
        = .error (.instanceNotFound event.id)) ∧
    (∀ inst, find_nearest_instance reference to_utc event instances = .ok inst →
      inst ∈ instances ∧
      (∀ a ∈ instances,
        compare_key to_utc reference inst ≤ compare_key to_utc reference a) ∧
      ∃ l₁ l₂, instances = l₁ ++ inst :: l₂ ∧
        ∀ a ∈ l₁,
          compare_key to_utc reference inst < compare_key to_utc reference a) := by
  constructor
  · intro hempty
    rw [hempty]
    rfl
  · intro inst h
    unfold find_nearest_instance at h
    cases hmin : py_min (compare_key to_utc reference) instances with
    | none => rw [hmin] at h; exact absurd h (by simp)
    | some r =>
        rw [hmin] at h
        simp only [Except.ok.injEq] at h
        subst h
        exact (py_min_spec (compare_key to_utc reference) instances).2 r hmin

/-- C5 witness: occurrences at offsets −5, +2 and +40 from the reference,
in a timezone agreeing with UTC; the +2 occurrence is selected. -/
theorem C5_nearest_witness :
    (⟨"b", 2⟩ : EventInstance) ∈ [⟨"a", -5⟩, ⟨"b", 2⟩, (⟨"c", 40⟩ : EventInstance)] ∧
    (∀ a ∈ [⟨"a", -5⟩, ⟨"b", 2⟩, (⟨"c", 40⟩ : EventInstance)],
      compare_key (fun t => t) 0 ⟨"b", 2⟩ ≤ compare_key (fun t => t) 0 a) ∧
    ∃ l₁ l₂,
      [⟨"a", -5⟩, ⟨"b", 2⟩, (⟨"c", 40⟩ : EventInstance)] = l₁ ++ ⟨"b", 2⟩ :: l₂ ∧
      ∀ a ∈ l₁, compare_key (fun t => t) 0 ⟨"b", 2⟩ < compare_key (fun t => t) 0 a :=
  (C5_nearest 0 (fun t => t) ⟨"ev", "Etc/UTC"⟩
    [⟨"a", -5⟩, ⟨"b", 2⟩, ⟨"c", 40⟩]).2 ⟨"b", 2⟩ rfl

/-! ### Token encoding -/

/-- The nibble value of a lowercase hex digit character. -/
def hex_val (c : Char) : ℕ :=
  if 97 ≤ c.toNat then c.toNat - 87 else c.toNat - 48

/-- A byte value recovered from its two hex characters. -/
def decode_pair : List Char → ℕ
  | [c, d] => 16 * hex_val c + hex_val d
  | _ => 0

set_option maxRecDepth 4096 in
/-- Decoding inverts the byte encoding. -/
lemma decode_encode_byte : ∀ b : Fin 256, decode_pair (encode_byte b) = b.val := by
  decide

/-- The two-character encodings of distinct bytes differ. -/
lemma encode_byte_injective : Function.Injective encode_byte := by
  intro a b h
  have ha := decode_encode_byte a
  rw [h, decode_encode_byte b] at ha
  exact Fin.ext ha.symm

/-- Each encoded block has two characters. -/
lemma encode_byte_length (b : Fin 256) : (encode_byte b).length = 2 := rfl

/-- The hex rendering of a byte string has twice its length. -/
lemma token_hex_chars_length :
    ∀ bytes : List (Fin 256), (token_hex_chars bytes).length = 2 * bytes.length := by
  intro bytes
  induction bytes with
  | nil => rfl
  | cons b bs ih =>
      simp only [token_hex_chars, List.length_append, encode_byte_length,
        List.length_cons, ih]
      omega

/-- Distinct byte strings have distinct hex renderings. -/
lemma token_hex_chars_injective : Function.Injective token_hex_chars := by
  intro bs1
  induction bs1 with
  | nil =>
      intro bs2 h
      cases bs2 with
      | nil => rfl
      | cons b t =>
          have hlen := congrArg List.length h
          rw [token_hex_chars_length, token_hex_chars_length] at hlen
          simp at hlen
  | cons b1 t1 ih =>
      intro bs2 h
      cases bs2 with
      | nil =>
          have hlen := congrArg List.length h
          rw [token_hex_chars_length, token_hex_chars_length] at hlen
          simp at hlen
      | cons b2 t2 =>
          simp only [token_hex_chars] at h
          obtain ⟨h1, h2⟩ :=
            List.append_inj h (by rw [encode_byte_length, encode_byte_length])
          rw [encode_byte_injective h1, ih h2]

/-- Distinct byte strings give distinct tokens. -/
lemma generate_token_injective : Function.Injective generate_token := by
  intro a b h
  exact token_hex_chars_injective (congrArg String.data h)

/-- C8: the token is a fixed-length string of 32 hex characters; the map
from the sixteen CSPRNG bytes to the token is injective, so under the
uniform distribution of `secrets.token_hex` the token carries the full
`2 ^ 128` possibilities, at least 128 bits of entropy; and the credential
expiry is the issuance instant plus the configured timeout, strictly after
the issuance instant since the timeout is positive. -/
theorem C8_credentials (bytes : List (Fin 256)) (now timeout : ℤ)
    (hlen : bytes.length = 16) (htimeout : 0 < timeout) :
    (generate_token bytes).length = 32 ∧
    Function.Injective generate_token ∧
    Function.Injective (fun b : Fin 16 → Fin 256 => generate_token (List.ofFn b)) ∧
    Fintype.card (Fin 16 → Fin 256) = 2 ^ 128 ∧
    (generate_credentials bytes now timeout).expires_at = now + timeout ∧
    now < (generate_credentials bytes now timeout).expires_at := by
  refine ⟨?_, generate_token_injective, ?_, ?_, rfl, ?_⟩
  · show (token_hex_chars bytes).length = 32
    rw [token_hex_chars_length, hlen]
  · intro f g hfg
    exact List.ofFn_injective (generate_token_injective hfg)
  · rw [Fintype.card_fun, Fintype.card_fin, Fintype.card_fin]
    norm_num
  · show now < now + timeout
    omega

/-- C8 witness: sixteen zero bytes and a timeout of one unit. -/
theorem C8_credentials_witness :
    (generate_token (List.replicate 16 0)).length = 32 ∧
    Function.Injective generate_token ∧
    Function.Injective (fun b : Fin 16 → Fin 256 => generate_token (List.ofFn b)) ∧
    Fintype.card (Fin 16 → Fin 256) = 2 ^ 128 ∧
    (generate_credentials (List.replicate 16 0) 0 1).expires_at = 0 + 1 ∧
    (0 : ℤ) < (generate_credentials (List.replicate 16 0) 0 1).expires_at :=
  C8_credentials (List.replicate 16 0) 0 1 (by decide) (by decide)

end Emirecords
